import Mathlib

/-!
Verification of the pastec image feature extractor
(src/imagefeatureextractor.cpp) against its specification.

The development shallowly embeds the quantization and hit-indexing
pipeline:

* the 16-bit fixed-point geometric encodings computed at lines 110-113
  of processNewImage (the C float expressions are modelled in exact
  rational arithmetic; the final C cast from float to u_int16_t is
  truncation toward zero, modelled by ratTrunc);
* the per-keypoint k-nearest-neighbour quantization loop of
  processNewImage (lines 103-135), with the decoder, the SIFT detector,
  the flann index and the file system modelled as oracles supplied in an
  environment record;
* the hit serialization of writeHit (lines 185-200), at byte level;
* the visual-word vocabulary loader readVisualWords (lines 209-241) and
  the startup check of init (lines 17-28), at byte level.
-/

/-! ## Fixed-point geometric encoding (processNewImage, lines 110-113) -/

/-- Truncation toward zero of a rational, as performed by the C
conversion from a floating-point value to an integer type. -/
def ratTrunc (q : ℚ) : ℤ := if 0 ≤ q then ⌊q⌋ else -⌊-q⌋

/-- Encoding of a fraction q on 16 bits: the C code computes
q * (1 <<< 16) and converts the result to u_int16_t, which truncates
toward zero and reduces modulo 2 ^ 16. This models the expressions
keypoints[i].angle / 360 * (1 <<< 16) and their x and y analogues at
lines 111-113, with q the fraction angle / 360, x / width or
y / height. -/
def encode16 (q : ℚ) : ℕ := (ratTrunc (q * 65536)).toNat % 65536

/-- Angle encoding at line 111: angle / 360 * (1 <<< 16) stored in a
u_int16_t. -/
def encodeAngle (a : ℚ) : ℕ := encode16 (a / 360)

/-- Encoding of the spec sentence, for comparison with the code:
round(q * 65536) mod 65536 (rounding to nearest, not truncation). -/
def roundEncode16 (q : ℚ) : ℕ := (round (q * 65536)).toNat % 65536

/-- Spec-side angle encoding: round(angle / 360.0 * 65536) mod 65536. -/
def roundEncodeAngle (a : ℚ) : ℕ := roundEncode16 (a / 360)

/-! ## Data model of the quantization pipeline -/

/-- Decoded image dimensions (img.cols and img.rows at lines 65-66). -/
structure Img where
  width : ℕ
  height : ℕ
deriving DecidableEq

/-- One SIFT keypoint: orientation angle in degrees, position in pixel
coordinates, and an abstract identifier of its descriptor row (the
pipeline never inspects descriptor contents, it only passes
descriptors.row(i) to the index). -/
structure KeyPt where
  angle : ℚ
  ptx : ℚ
  pty : ℚ
  desc : ℕ
deriving DecidableEq

/-- The HitForward record filled at lines 121-126.  i_wordId and
i_imageId are u_int32_t, the geometric fields are u_int16_t; all are
modelled as ℕ with the conversions made explicit where they occur. -/
structure Hit where
  wordId : ℕ
  imageId : ℕ
  angle : ℕ
  x : ℕ
  y : ℕ
deriving DecidableEq

/-- Reply codes sent to the client in processNewImage: OK,
IMAGE_NOT_DECODED, IMAGE_SIZE_TOO_BIG, IMAGE_SIZE_TOO_SMALL,
ERROR_GENERIC. -/
inductive Status where
  | ok
  | imageNotDecoded
  | imageSizeTooBig
  | imageSizeTooSmall
  | errorGeneric
deriving DecidableEq

/-- State of the output file stream.  good models ofs.good(); nWrites
counts hit-write operations performed so far (used to schedule
failures); written records each hit submitted to writeHit together with
whether its write left the stream healthy. -/
structure OutStream where
  good : Bool
  nWrites : ℕ
  written : List (Hit × Bool)
deriving DecidableEq

/-- Environment of one processNewImage call, modelling the external
collaborators as oracles: the result of imdecode (none when decoding
throws or yields no data, lines 46-63), the keypoints produced by SIFT
(line 90), whether openHitFile succeeds (line 97), which hit-write
operations keep the stream healthy (writeOk n is the outcome of the
n-th hit write), and the flann index answering knnSearch with k word
identifiers for a descriptor row (line 117; the vectors passed to
knnSearch are sized to k = 4, so the returned list has length 4 by the
library contract). -/
structure Env where
  decoded : Option Img
  keypoints : List KeyPt
  openOk : Bool
  writeOk : ℕ → Bool
  knn : ℕ → List ℕ

/-- Result of one processNewImage call: the reply sent to the client,
the boolean return value, whether openHitFile was ever invoked, and the
final output stream when one was opened. -/
structure PResult where
  status : Status
  retVal : Bool
  openAttempted : Bool
  stream : Option OutStream

/-! ## The quantization loop (processNewImage, lines 103-135) -/

/-- Hits produced for one keypoint, lines 110-134: the three geometric
encodings are computed once, before the knn query, and one hit is
created per returned neighbour, in the order the index returned them.
i_wordId is a u_int32_t assigned from an int, hence the reduction
modulo 2 ^ 32. -/
def hitsOfKeypoint (knn : ℕ → List ℕ) (imageId w h : ℕ) (kp : KeyPt) :
    List Hit :=
  let a := encodeAngle kp.angle
  let x := encode16 (kp.ptx / (w : ℚ))
  let y := encode16 (kp.pty / (h : ℚ))
  (knn kp.desc).map (fun wid => ⟨wid % 2 ^ 32, imageId, a, x, y⟩)

/-- The knn queries issued by the loop, in order: line 117 issues
exactly one knnSearch per keypoint, with that keypoint descriptor row
and k = 4. -/
def knnQueries (kps : List KeyPt) : List (ℕ × ℕ) :=
  kps.map (fun kp => (kp.desc, 4))

/-- All hits of one image in production order: keypoints in detection
order (the outer loop at line 105), neighbours in index order (the
inner loop at line 119). -/
def allHits (env : Env) (imageId : ℕ) (img : Img) : List Hit :=
  env.keypoints.flatMap
    (hitsOfKeypoint env.knn imageId img.width img.height)

/-- writeHit, lines 185-200: if the stream is not good the function
reports failure without writing; otherwise it performs the five writes
(which may themselves leave the stream bad, an outcome drawn from the
schedule) and returns true unconditionally - the stream state after its
own writes is not checked. -/
def writeHit (sched : ℕ → Bool) (s : OutStream) (h : Hit) :
    Bool × OutStream :=
  if s.good then
    (true, ⟨sched s.nWrites, s.nWrites + 1,
            s.written ++ [(h, sched s.nWrites)]⟩)
  else
    (false, s)

/-- The write loop of lines 119-134 flattened over the hit sequence: a
writeHit returning false aborts the whole request. -/
def writeHits (sched : ℕ → Bool) : OutStream → List Hit → Bool × OutStream
  | s, [] => (true, s)
  | s, h :: hs =>
    let r := writeHit sched s h
    if r.1 then writeHits sched r.2 hs else (false, r.2)

/-- processNewImage, lines 39-153: decode, validate the size (too big
checked first, lines 69-75, then too small, lines 78-84), detect, open
the hit file (line 97), write all hits aborting on the first writeHit
failure (lines 128-133), close and reply OK. -/
def processNewImage (env : Env) (imageId : ℕ) : PResult :=
  match env.decoded with
  | none => ⟨.imageNotDecoded, false, false, none⟩
  | some img =>
    if 1000 < img.width ∨ 1000 < img.height then
      ⟨.imageSizeTooBig, false, false, none⟩
    else if img.width < 200 ∨ img.height < 200 then
      ⟨.imageSizeTooSmall, false, false, none⟩
    else if env.openOk then
      let r := writeHits env.writeOk ⟨true, 0, []⟩ (allHits env imageId img)
      if r.1 then ⟨.ok, true, true, some r.2⟩
      else ⟨.errorGeneric, false, true, some r.2⟩
    else
      ⟨.errorGeneric, false, true, none⟩

/-! ## Hit serialization (writeHit, lines 193-197) -/

/-- Little-endian byte image of a value on w bytes, as laid down by
ofs.write on the x86 representation of the unsigned integer fields. -/
def toBytesLE (v : ℕ) : ℕ → List ℕ
  | 0 => []
  | w + 1 => v % 256 :: toBytesLE (v / 256) w

/-- Byte image of one hit record: the five ofs.write calls of lines
193-197 in order, wordId on 4 bytes, imageId on 4 bytes, angle, x and y
on 2 bytes each. -/
def serializeHit (h : Hit) : List ℕ :=
  toBytesLE h.wordId 4 ++ toBytesLE h.imageId 4 ++
    toBytesLE h.angle 2 ++ toBytesLE h.x 2 ++ toBytesLE h.y 2

/-- Content of a hit file holding the given records: consecutive
serialized hits with nothing between them. -/
def hitFileBytes (hits : List Hit) : List ℕ :=
  hits.flatMap serializeHit

/-! ## Vocabulary loading (readVisualWords, lines 209-241) and init -/

/-- Read one 4-byte float component from the stream; none models
ifs.read failing (fewer than 4 bytes left, failbit and eofbit set). -/
def readChunk : List ℕ → Option (List ℕ × List ℕ)
  | b0 :: b1 :: b2 :: b3 :: rest => some ([b0, b1, b2, b3], rest)
  | _ => none

/-- Read n consecutive 4-byte components (the inner loop of lines
227-231); fails as soon as one read fails. -/
def readChunks : ℕ → List ℕ → Option (List (List ℕ) × List ℕ)
  | 0, s => some ([], s)
  | n + 1, s =>
    match readChunk s with
    | none => none
    | some (c, rest) =>
      match readChunks n rest with
      | none => none
      | some (cs, rest2) => some (c :: cs, rest2)

/-- ifs.ignore(max, newline) at line 235: consume bytes up to and
including the next newline (byte 10); none models reaching end of input
first, which sets eofbit and ends the while loop. -/
def skipLine : List ℕ → Option (List ℕ)
  | [] => none
  | b :: rest => if b = 10 then some rest else skipLine rest

/-- The while loop of lines 224-236, fuelled: read 128 components, stop
appending nothing if any read failed (lines 232-233), otherwise append
the row and skip the newline delimiter; when the skip hits end of input
the loop condition ifs.good() fails and the row list is complete. -/
def parseRowsAux : ℕ → List ℕ → List (List (List ℕ))
  | 0, _ => []
  | fuel + 1, s =>
    match readChunks 128 s with
    | none => []
    | some (row, rest) =>
      match skipLine rest with
      | none => [row]
      | some rest2 => row :: parseRowsAux fuel rest2

/-- Rows loaded by readVisualWords from the byte content of an openable
vocabulary file. -/
def parseRows (s : List ℕ) : List (List (List ℕ)) :=
  parseRowsAux (s.length + 1) s

/-- readVisualWords, lines 209-241: none when the file cannot be opened
(lines 217-221, the only failing return); otherwise the parsed rows,
whatever the content. -/
def readVisualWordsFn (openOk : Bool) (bytes : List ℕ) :
    Option (List (List (List ℕ))) :=
  if openOk then some (parseRows bytes) else none

/-- Outcome of init, lines 17-28: exitFailure models exit(1) after a
failed load, assertFailure models the abort of
assert(words->rows == 1000000), and ok carries the vocabulary with
which the service proceeds to build or load the index (line 27). -/
inductive InitOutcome where
  | ok (vocab : List (List (List ℕ)))
  | exitFailure
  | assertFailure
deriving DecidableEq

/-- init, lines 17-28, over a file that is either unopenable (none) or
holds the given bytes. -/
def initModel (file : Option (List ℕ)) : InitOutcome :=
  match file with
  | none => .exitFailure
  | some bytes =>
    let v := parseRows bytes
    if v.length = 1000000 then .ok v else .assertFailure

/-! ## Helper lemmas -/

/-- On a fraction in [0, 1) the 16-bit encoding is the floor of
q * 65536, and the modulo reduction is the identity. -/
lemma encode16_eq_floor (q : ℚ) (h0 : 0 ≤ q) (h1 : q < 1) :
    (encode16 q : ℤ) = ⌊q * 65536⌋ ∧ encode16 q < 65536 := by
  have hq0 : (0 : ℚ) ≤ q * 65536 := by positivity
  have hf0 : 0 ≤ ⌊q * 65536⌋ := Int.floor_nonneg.2 hq0
  have hflt : ⌊q * 65536⌋ < 65536 := by
    have hlt : q * 65536 < 65536 := by nlinarith
    exact Int.floor_lt.2 (by exact_mod_cast hlt)
  have ht : ratTrunc (q * 65536) = ⌊q * 65536⌋ := by
    unfold ratTrunc
    rw [if_pos hq0]
  unfold encode16
  rw [ht]
  have htn : (⌊q * 65536⌋).toNat < 65536 := by omega
  rw [Nat.mod_eq_of_lt htn]
  exact ⟨by omega, htn⟩

/-- Indexing the concatenation of equal-length blocks: block i,
element j sits at position k * i + j. -/
lemma flatMap_const_length_getElem {α β : Type} (f : α → List β) (k : ℕ)
    (hf : ∀ a, (f a).length = k) (l : List α) (d : α) :
    (l.flatMap f).length = k * l.length ∧
    ∀ i j, i < l.length → j < k →
      (l.flatMap f)[k * i + j]? = (f (l[i]?.getD d))[j]? := by
  induction l with
  | nil =>
    refine ⟨by simp, ?_⟩
    intro i j hi _
    exact absurd hi (by simp)
  | cons a t ih =>
    obtain ⟨ihlen, ihget⟩ := ih
    constructor
    · simp only [List.flatMap_cons, List.length_append, ihlen, hf a,
        List.length_cons]
      ring
    · intro i j hi hj
      cases i with
      | zero =>
        simp only [List.flatMap_cons, Nat.mul_zero, Nat.zero_add]
        rw [List.getElem?_append, if_pos (by rw [hf a]; exact hj)]
        simp
      | succ i2 =>
        simp only [List.flatMap_cons]
        have harith : k * (i2 + 1) + j = (f a).length + (k * i2 + j) := by
          rw [hf a]; ring
        rw [harith, List.getElem?_append_right (by omega),
          Nat.add_sub_cancel_left]
        have hi2 : i2 < t.length := by
          simpa [Nat.succ_lt_succ_iff] using hi
        rw [ihget i2 j hi2 hj]
        simp

/-- A run of writeHits that reports success leaves the previous stream
content as a prefix and appends exactly the submitted hits. -/
lemma writeHits_success_written (sched : ℕ → Bool) (hits : List Hit)
    (s s2 : OutStream) (h : writeHits sched s hits = (true, s2)) :
    ∃ l, s2.written = s.written ++ l ∧ l.map Prod.fst = hits := by
  induction hits generalizing s with
  | nil =>
    refine ⟨[], ?_, rfl⟩
    simp only [writeHits] at h
    rw [(Prod.mk.injEq _ _ _ _).mp h |>.2]
    simp
  | cons a t ih =>
    by_cases hg : s.good
    · simp only [writeHits, writeHit, if_pos hg, if_pos] at h
      obtain ⟨l, hl1, hl2⟩ := ih _ h
      refine ⟨(a, sched s.nWrites) :: l, ?_, by simp [hl2]⟩
      simp only [hl1]
      simp
    · simp only [writeHits, writeHit, if_neg hg] at h
      simp at h

/-- In a successful run every entry written before the last one is a
healthy write: writeHit checks the stream before each write, so a
failure of any write other than the final one is caught by the next
call. -/
lemma writeHits_success_checked (sched : ℕ → Bool) (hits : List Hit)
    (s s2 : OutStream) (h : writeHits sched s hits = (true, s2)) :
    ∀ j p, s.written.length ≤ j → j + 1 < s2.written.length →
      s2.written[j]? = some p → p.2 = true := by
  induction hits generalizing s with
  | nil =>
    intro j p hj1 hj2 _
    simp only [writeHits] at h
    rw [← (Prod.mk.injEq _ _ _ _).mp h |>.2] at hj2
    omega
  | cons a t ih =>
    by_cases hg : s.good
    · simp only [writeHits, writeHit, if_pos hg, if_pos] at h
      set s1 : OutStream :=
        ⟨sched s.nWrites, s.nWrites + 1,
         s.written ++ [(a, sched s.nWrites)]⟩ with hs1
      intro j p hj1 hj2 hget
      rcases Nat.lt_or_ge j (s.written.length + 1) with hj3 | hj3
      · have hjeq : j = s.written.length := by omega
        obtain ⟨l, hl1, hl2⟩ := writeHits_success_written sched t s1 s2 h
        cases t with
        | nil =>
          simp only [writeHits] at h
          rw [← (Prod.mk.injEq _ _ _ _).mp h |>.2] at hj2
          simp [hs1] at hj2
          omega
        | cons b t2 =>
          have hg1 : s1.good = true := by
            by_contra hbad
            simp only [writeHits, writeHit, if_neg hbad] at h
            simp at h
          have hs2get : s2.written[j]? = some (a, sched s.nWrites) := by
            rw [hl1, hs1]
            rw [List.getElem?_append, if_pos (by simp [hjeq])]
            rw [List.getElem?_append, if_neg (by omega)]
            simp [hjeq]
          rw [hs2get] at hget
          have hpe : p = (a, sched s.nWrites) :=
            (Option.some.inj hget).symm
          rw [hpe]
          simpa [hs1] using hg1
      · exact ih s1 h j p (by simp [hs1]; omega) hj2 hget
    · simp only [writeHits, writeHit, if_neg hg] at h
      simp at h

/-- The decoded value of an encoded fraction lies within one
quantization step of the original quantity, for any positive scale. -/
lemma decode_close (q c : ℚ) (h0 : 0 ≤ q) (h1 : q < 1) (hc : 0 < c) :
    |q * c - (encode16 q : ℚ) / 65536 * c| ≤ c / 65536 := by
  obtain ⟨hfl, _⟩ := encode16_eq_floor q h0 h1
  have hq : ((encode16 q : ℕ) : ℚ) = ((⌊q * 65536⌋ : ℤ) : ℚ) := by
    exact_mod_cast congrArg (fun z : ℤ => (z : ℚ)) hfl
  rw [hq]
  have h2 : ((⌊q * 65536⌋ : ℤ) : ℚ) ≤ q * 65536 := Int.floor_le _
  have h3 : q * 65536 < ((⌊q * 65536⌋ : ℤ) : ℚ) + 1 := Int.lt_floor_add_one _
  rw [abs_le]
  constructor
  · nlinarith
  · nlinarith

/-! ## Claim C2: geometric encoding formula -/

/-- Claim C2, counterexample: at angle a = 18135 / 32768 degrees
(exactly representable in single precision; a / 360 * 65536 = 100.75,
comfortably far from both integers, so the float computation of line
111 lands on the same side as the exact one), the code stores
trunc(100.75) = 100 while the claimed formula round(100.75) mod 65536
gives 101.  The stored encoding is a truncation, not a rounding. -/
theorem C2_encode_round_counterexample :
    encodeAngle ((18135 : ℚ) / 32768) = 100 ∧
    roundEncodeAngle ((18135 : ℚ) / 32768) = 101 ∧
    encodeAngle ((18135 : ℚ) / 32768) ≠
      roundEncodeAngle ((18135 : ℚ) / 32768) := by
  have h1 : encodeAngle ((18135 : ℚ) / 32768) = 100 := by
    unfold encodeAngle encode16 ratTrunc
    rw [if_pos (by norm_num)]
    norm_num
    decide
  have h2 : roundEncodeAngle ((18135 : ℚ) / 32768) = 101 := by
    unfold roundEncodeAngle roundEncode16
    rw [round_eq]
    norm_num
    decide
  exact ⟨h1, h2, by rw [h1, h2]; decide⟩

/-- Claim C2, amended: for every keypoint with angle a in [0, 360) and
position (x, y) inside an image of the given width and height, the
stored 16-bit encodings equal the truncation toward zero (here the
floor, the quantities being nonnegative) of a / 360 * 65536,
x / width * 65536 and y / height * 65536 - not their roundings; the
values are below 65536, so the modulo reduction of the u_int16_t
conversion is the identity. -/
theorem C2_encode_is_truncation (a x y : ℚ) (w h : ℕ)
    (ha0 : 0 ≤ a) (ha1 : a < 360)
    (hx0 : 0 ≤ x) (hx1 : x < w)
    (hy0 : 0 ≤ y) (hy1 : y < h) :
    (encodeAngle a : ℤ) = ⌊a / 360 * 65536⌋ ∧
    (encode16 (x / (w : ℚ)) : ℤ) = ⌊x / (w : ℚ) * 65536⌋ ∧
    (encode16 (y / (h : ℚ)) : ℤ) = ⌊y / (h : ℚ) * 65536⌋ ∧
    encodeAngle a < 65536 ∧
    encode16 (x / (w : ℚ)) < 65536 ∧
    encode16 (y / (h : ℚ)) < 65536 := by
  have hw : (0 : ℚ) < (w : ℚ) := lt_of_le_of_lt hx0 hx1
  have hh : (0 : ℚ) < (h : ℚ) := lt_of_le_of_lt hy0 hy1
  have ha := encode16_eq_floor (a / 360)
    (div_nonneg ha0 (by norm_num)) ((div_lt_one (by norm_num)).mpr ha1)
  have hx := encode16_eq_floor (x / (w : ℚ))
    (div_nonneg hx0 hw.le) ((div_lt_one hw).mpr hx1)
  have hy := encode16_eq_floor (y / (h : ℚ))
    (div_nonneg hy0 hh.le) ((div_lt_one hh).mpr hy1)
  exact ⟨ha.1, hx.1, hy.1, ha.2, hx.2, hy.2⟩

/-- Witness for C2_encode_is_truncation at the spec end-to-end example:
angle 90 in a 100 x 100 image at x = 50 gives angle_fixed = 16384 and
x_fixed = 32768. -/
theorem C2_encode_is_truncation_witness :
    (encodeAngle 90 : ℤ) = 16384 ∧
    encode16 ((50 : ℚ) / ((100 : ℕ) : ℚ)) = 32768 := by
  have hth := C2_encode_is_truncation 90 50 50 100 100 (by norm_num)
    (by norm_num) (by norm_num) (by norm_num) (by norm_num) (by norm_num)
  refine ⟨?_, ?_⟩
  · rw [hth.1]
    norm_num
  · have h2 : (encode16 ((50 : ℚ) / ((100 : ℕ) : ℚ)) : ℤ) = 32768 := by
      rw [hth.2.1]
      norm_num
    exact_mod_cast h2

/-! ## Claim C8: fixed-point round-trip bound -/

/-- Claim C8: for every angle a in [0, 360) the decoded value
angle_fixed / 65536 * 360 lies within one quantization step
(360 / 65536 degrees) of a, and the analogous one-step bound holds for
a coordinate x in [0, w) against the image dimension w. -/
theorem C8_roundtrip_bound (a x : ℚ) (w : ℕ)
    (ha0 : 0 ≤ a) (ha1 : a < 360) (hx0 : 0 ≤ x) (hx1 : x < w) :
    |a - (encodeAngle a : ℚ) / 65536 * 360| ≤ 360 / 65536 ∧
    |x - (encode16 (x / (w : ℚ)) : ℚ) / 65536 * w| ≤ (w : ℚ) / 65536 := by
  have hw : (0 : ℚ) < (w : ℚ) := lt_of_le_of_lt hx0 hx1
  constructor
  · have hb := decode_close (a / 360) 360
      (div_nonneg ha0 (by norm_num)) ((div_lt_one (by norm_num)).mpr ha1)
      (by norm_num)
    rw [div_mul_cancel₀ a (by norm_num : (360 : ℚ) ≠ 0)] at hb
    exact hb
  · have hb := decode_close (x / (w : ℚ)) (w : ℚ)
      (div_nonneg hx0 hw.le) ((div_lt_one hw).mpr hx1) hw
    rw [div_mul_cancel₀ x (ne_of_gt hw)] at hb
    exact hb

/-- Witness for C8_roundtrip_bound at angle 90 and x = 50 in an image
of width 100. -/
theorem C8_roundtrip_bound_witness :
    |(90 : ℚ) - (encodeAngle 90 : ℚ) / 65536 * 360| ≤ 360 / 65536 ∧
    |(50 : ℚ) - (encode16 ((50 : ℚ) / ((100 : ℕ) : ℚ)) : ℚ) / 65536 *
      ((100 : ℕ) : ℚ)| ≤ ((100 : ℕ) : ℚ) / 65536 :=
  C8_roundtrip_bound 90 50 100 (by norm_num) (by norm_num) (by norm_num)
    (by norm_num)

/-! ## Claim C1: one knn query per keypoint, four hits in order -/

/-- Claim C1: for every processed keypoint the engine issues exactly
one nearest-neighbour query with k = 4 using that keypoint descriptor
(first conjunct, one query per keypoint in keypoint order), and the
produced hit sequence contains exactly 4 hits per keypoint: hit number
4 * i + j is built from neighbour j of keypoint i exactly as the index
returned it, so hits follow keypoint order and, within a keypoint,
index order; at j = 0 the word identifier is the one of the single
nearest neighbour.  The length-4 hypothesis is the flann contract for
the k = 4 query of line 117. -/
theorem C1_one_query_four_hits (env : Env) (imageId : ℕ) (img : Img)
    (hk : ∀ d, (env.knn d).length = 4) :
    knnQueries env.keypoints =
      env.keypoints.map (fun kp => (kp.desc, 4)) ∧
    (allHits env imageId img).length = 4 * env.keypoints.length ∧
    ∀ i j, i < env.keypoints.length → j < 4 →
      (allHits env imageId img)[4 * i + j]? =
        ((env.knn (env.keypoints[i]?.getD ⟨0, 0, 0, 0⟩).desc)[j]?).map
          (fun wid =>
            ⟨wid % 2 ^ 32, imageId,
             encodeAngle (env.keypoints[i]?.getD ⟨0, 0, 0, 0⟩).angle,
             encode16 ((env.keypoints[i]?.getD ⟨0, 0, 0, 0⟩).ptx /
               (img.width : ℚ)),
             encode16 ((env.keypoints[i]?.getD ⟨0, 0, 0, 0⟩).pty /
               (img.height : ℚ))⟩) := by
  have hf : ∀ kp, (hitsOfKeypoint env.knn imageId img.width img.height
      kp).length = 4 := by
    intro kp
    simp [hitsOfKeypoint, hk]
  obtain ⟨hlen, hget⟩ := flatMap_const_length_getElem
    (hitsOfKeypoint env.knn imageId img.width img.height) 4 hf
    env.keypoints ⟨0, 0, 0, 0⟩
  refine ⟨rfl, hlen, ?_⟩
  intro i j hi hj
  rw [show allHits env imageId img = env.keypoints.flatMap
    (hitsOfKeypoint env.knn imageId img.width img.height) from rfl]
  rw [hget i j hi hj]
  simp [hitsOfKeypoint]

/-- Witness for C1_one_query_four_hits: two keypoints produce exactly
eight hits. -/
def envW : Env :=
  ⟨some ⟨300, 300⟩, [⟨90, 50, 50, 0⟩, ⟨180, 100, 150, 1⟩], true,
   fun _ => true, fun _ => [5, 6, 7, 8]⟩

theorem C1_one_query_four_hits_witness :
    (allHits envW 7 ⟨300, 300⟩).length = 8 := by
  have hth := C1_one_query_four_hits envW 7 ⟨300, 300⟩ (fun _ => rfl)
  simpa using hth.2.1

/-! ## Claim C10: hits of one keypoint share their geometry -/

/-- Claim C10: the geometric encodings are computed once per keypoint
before the neighbour query (lines 110-113), so the k hits of one
keypoint carry identical imageId, angle, x and y; only wordId can
differ within the group. -/
theorem C10_hits_share_geometry (env : Env) (imageId : ℕ) (img : Img)
    (hk : ∀ d, (env.knn d).length = 4) :
    ∀ i j j2 p p2, i < env.keypoints.length → j < 4 → j2 < 4 →
      (allHits env imageId img)[4 * i + j]? = some p →
      (allHits env imageId img)[4 * i + j2]? = some p2 →
      p.imageId = p2.imageId ∧ p.angle = p2.angle ∧
        p.x = p2.x ∧ p.y = p2.y := by
  have hf : ∀ kp, (hitsOfKeypoint env.knn imageId img.width img.height
      kp).length = 4 := by
    intro kp
    simp [hitsOfKeypoint, hk]
  obtain ⟨hlen, hget⟩ := flatMap_const_length_getElem
    (hitsOfKeypoint env.knn imageId img.width img.height) 4 hf
    env.keypoints ⟨0, 0, 0, 0⟩
  intro i j j2 p p2 hi hj hj2 hp hp2
  rw [show allHits env imageId img = env.keypoints.flatMap
    (hitsOfKeypoint env.knn imageId img.width img.height) from rfl,
    hget i j hi hj] at hp
  rw [show allHits env imageId img = env.keypoints.flatMap
    (hitsOfKeypoint env.knn imageId img.width img.height) from rfl,
    hget i j2 hi hj2] at hp2
  simp only [hitsOfKeypoint, List.getElem?_map, Option.map_map] at hp hp2
  obtain ⟨w1, _, hw1⟩ := Option.map_eq_some'.mp hp
  obtain ⟨w2, _, hw2⟩ := Option.map_eq_some'.mp hp2
  rw [← hw1, ← hw2]
  exact ⟨rfl, rfl, rfl, rfl⟩

/-- Witness for C10_hits_share_geometry: the first two hits of the
first keypoint of envW share imageId, angle, x and y. -/
theorem C10_hits_share_geometry_witness :
    ∃ p p2, (allHits envW 7 ⟨300, 300⟩)[0]? = some p ∧
      (allHits envW 7 ⟨300, 300⟩)[1]? = some p2 ∧
      p.imageId = p2.imageId ∧ p.angle = p2.angle ∧
        p.x = p2.x ∧ p.y = p2.y := by
  have hp : (allHits envW 7 ⟨300, 300⟩)[0]? =
      some ⟨5 % 2 ^ 32, 7, encodeAngle 90,
        encode16 ((50 : ℚ) / ((300 : ℕ) : ℚ)),
        encode16 ((50 : ℚ) / ((300 : ℕ) : ℚ))⟩ := by
    simp [allHits, hitsOfKeypoint, envW]
  have hp2 : (allHits envW 7 ⟨300, 300⟩)[1]? =
      some ⟨6 % 2 ^ 32, 7, encodeAngle 90,
        encode16 ((50 : ℚ) / ((300 : ℕ) : ℚ)),
        encode16 ((50 : ℚ) / ((300 : ℕ) : ℚ))⟩ := by
    simp [allHits, hitsOfKeypoint, envW]
  refine ⟨_, _, hp, hp2, ?_⟩
  exact C10_hits_share_geometry envW 7 ⟨300, 300⟩ (fun _ => rfl) 0 0 1 _ _
    (by simp [envW]) (by norm_num) (by norm_num)
    (by simpa using hp) (by simpa using hp2)

/-! ## Claim C5: image size validation -/

/-- Claim C5, counterexample: a decoded image of width 1001 and height
199 has a dimension equal to 199, so the claim requires status
image-too-small, but the code checks the upper bound first (lines
69-75) and reports image-too-big. -/
def envC5 : Env := ⟨some ⟨1001, 199⟩, [], true, fun _ => true, fun _ => []⟩

theorem C5_boundary_counterexample :
    (processNewImage envC5 0).status = .imageSizeTooBig ∧
    (processNewImage envC5 0).status ≠ .imageSizeTooSmall := by
  constructor
  · rfl
  · intro hcon
    simp [processNewImage, envC5] at hcon

/-- Claim C5, amended: validation passes (processing proceeds to
detection and to opening the hit file, witnessed by openAttempted)
exactly when width and height are both in [200, 1000]; width or height
equal to 1001 terminates the request with image-too-big; width or
height equal to 199 terminates it with image-too-small provided both
dimensions are at most 1000, since the too-big check runs first. -/
theorem C5_size_validation (env : Env) (imageId : ℕ) (img : Img)
    (hd : env.decoded = some img) :
    ((processNewImage env imageId).openAttempted = true ↔
      200 ≤ img.width ∧ img.width ≤ 1000 ∧
      200 ≤ img.height ∧ img.height ≤ 1000) ∧
    (img.width = 1001 ∨ img.height = 1001 →
      (processNewImage env imageId).status = .imageSizeTooBig) ∧
    (img.width ≤ 1000 → img.height ≤ 1000 →
      img.width = 199 ∨ img.height = 199 →
      (processNewImage env imageId).status = .imageSizeTooSmall) := by
  unfold processNewImage
  rw [hd]
  dsimp only
  split_ifs with h1 h2 h3 h4
  · exact ⟨⟨fun hcon => by simp at hcon, fun hr => by exfalso; omega⟩,
      fun _ => rfl, fun hw hh _ => by exfalso; omega⟩
  · exact ⟨⟨fun hcon => by simp at hcon, fun hr => by exfalso; omega⟩,
      fun hb => by exfalso; omega, fun _ _ _ => rfl⟩
  · exact ⟨⟨fun _ => by omega, fun _ => rfl⟩,
      fun hb => by exfalso; omega, fun _ _ hs => by exfalso; omega⟩
  · exact ⟨⟨fun _ => by omega, fun _ => rfl⟩,
      fun hb => by exfalso; omega, fun _ _ hs => by exfalso; omega⟩
  · exact ⟨⟨fun _ => by omega, fun _ => rfl⟩,
      fun hb => by exfalso; omega, fun _ _ hs => by exfalso; omega⟩

/-- Witness for C5_size_validation: a 300 x 300 image passes
validation. -/
def envOKImg : Env := ⟨some ⟨300, 300⟩, [], true, fun _ => true, fun _ => []⟩

theorem C5_size_validation_witness :
    (processNewImage envOKImg 0).openAttempted = true := by
  have hth := C5_size_validation envOKImg 0 ⟨300, 300⟩ rfl
  exact hth.1.mpr (by norm_num)

/-! ## Claim C9: undecodable image -/

/-- Claim C9: when the image buffer cannot be decoded (imdecode throws
or yields no pixel data, lines 46-63), processNewImage replies exactly
IMAGE_NOT_DECODED, returns false, and never reaches openHitFile, so no
output hit file is opened or created. -/
theorem C9_undecodable_no_output (env : Env) (imageId : ℕ)
    (hd : env.decoded = none) :
    processNewImage env imageId =
      ⟨.imageNotDecoded, false, false, none⟩ := by
  unfold processNewImage
  rw [hd]

/-- Witness for C9_undecodable_no_output on a concrete environment. -/
def envC9 : Env := ⟨none, [], true, fun _ => true, fun _ => []⟩

theorem C9_undecodable_no_output_witness :
    processNewImage envC9 3 = ⟨.imageNotDecoded, false, false, none⟩ :=
  C9_undecodable_no_output envC9 3 rfl

/-! ## Claim C3: write checking and terminal success -/

/-- Claim C3, counterexample: one keypoint produces four hits; the
stream stays healthy through the first three hit writes and goes bad
during the fourth (final) one.  writeHit checks the stream only before
writing (lines 187-191) and returns true unconditionally after the five
field writes, so the failure of the last write is never observed: the
request still replies OK and returns true although the write of the
fourth produced hit failed. -/
def envC3 : Env :=
  ⟨some ⟨300, 300⟩, [⟨90, 50, 50, 0⟩], true, fun n => n != 3,
   fun _ => [5, 6, 7, 8]⟩

theorem C3_last_write_unchecked :
    (processNewImage envC3 7).status = .ok ∧
    (processNewImage envC3 7).retVal = true ∧
    ((processNewImage envC3 7).stream.map
      (fun s => s.written.map Prod.snd)) =
        some [true, true, true, false] := by
  refine ⟨?_, ?_, ?_⟩ <;>
    simp [processNewImage, envC3, allHits, hitsOfKeypoint, writeHits,
      writeHit]

/-- Claim C3, amended: every hit write is preceded by a stream-health
check that catches the failure of the previous write, so when the
request terminates with status ok every produced hit was submitted to
the file in order and no write other than possibly the final one
failed; a failure during the final hit write is undetected
(counterexample above). -/
theorem C3_success_all_but_last_checked (env : Env) (imageId : ℕ)
    (hok : (processNewImage env imageId).status = .ok) :
    ∃ img s2, env.decoded = some img ∧
      (processNewImage env imageId).stream = some s2 ∧
      s2.written.map Prod.fst = allHits env imageId img ∧
      ∀ j p, j + 1 < s2.written.length → s2.written[j]? = some p →
        p.2 = true := by
  rcases hde : env.decoded with _ | img
  · unfold processNewImage at hok
    rw [hde] at hok
    exact absurd hok (by simp)
  · unfold processNewImage at hok ⊢
    rw [hde] at hok ⊢
    dsimp only at hok ⊢
    split_ifs at hok ⊢ with h1 h2 h3 h4
    have hw : writeHits env.writeOk ⟨true, 0, []⟩
        (allHits env imageId img) =
        (true, (writeHits env.writeOk ⟨true, 0, []⟩
          (allHits env imageId img)).2) := by
      exact Prod.ext h4 rfl
    obtain ⟨l, hl1, hl2⟩ :=
      writeHits_success_written env.writeOk _ _ _ hw
    refine ⟨img, _, rfl, rfl, ?_, ?_⟩
    · rw [hl1]
      simpa using hl2
    · intro j p hj hp
      exact writeHits_success_checked env.writeOk _ _ _ hw j p
        (by simp) hj hp

/-- Witness for C3_success_all_but_last_checked: a run in which every
write succeeds terminates with status ok, and the conclusion holds. -/
def envC3ok : Env :=
  ⟨some ⟨300, 300⟩, [⟨90, 50, 50, 0⟩], true, fun _ => true,
   fun _ => [5, 6, 7, 8]⟩

theorem C3_success_all_but_last_checked_witness :
    ∃ img s2, envC3ok.decoded = some img ∧
      (processNewImage envC3ok 7).stream = some s2 ∧
      s2.written.map Prod.fst = allHits envC3ok 7 img ∧
      ∀ j p, j + 1 < s2.written.length → s2.written[j]? = some p →
        p.2 = true :=
  C3_success_all_but_last_checked envC3ok 7 (by
    simp [processNewImage, envC3ok, allHits, hitsOfKeypoint, writeHits,
      writeHit])

/-! ## Claim C6: 14-byte hit record layout -/

/-- Length of a fixed-width little-endian field. -/
lemma toBytesLE_length (v w : ℕ) : (toBytesLE v w).length = w := by
  induction w generalizing v with
  | zero => rfl
  | succ n ih => simp [toBytesLE, ih]

/-- A serialized hit record is exactly 14 bytes. -/
lemma serializeHit_length (h : Hit) : (serializeHit h).length = 14 := by
  simp [serializeHit, toBytesLE_length]

/-- A hit file is 14 bytes per record and record i occupies the byte
range starting at offset 14 * i. -/
lemma hitFileBytes_extract (hits : List Hit) :
    (hitFileBytes hits).length = 14 * hits.length ∧
    ∀ i, i < hits.length →
      ((hitFileBytes hits).drop (14 * i)).take 14 =
        serializeHit (hits[i]?.getD ⟨0, 0, 0, 0, 0⟩) := by
  induction hits with
  | nil =>
    exact ⟨by simp [hitFileBytes], fun i hi => absurd hi (by simp)⟩
  | cons a t ih =>
    obtain ⟨ihl, ihe⟩ := ih
    constructor
    · simp only [hitFileBytes, List.flatMap_cons, List.length_append,
        serializeHit_length, List.length_cons]
      rw [show t.flatMap serializeHit = hitFileBytes t from rfl, ihl]
      ring
    · intro i hi
      cases i with
      | zero =>
        simp only [hitFileBytes, List.flatMap_cons, Nat.mul_zero,
          List.drop_zero]
        rw [show (14 : ℕ) = (serializeHit a).length from
          (serializeHit_length a).symm]
        rw [List.take_left]
        simp
      | succ i2 =>
        simp only [hitFileBytes, List.flatMap_cons]
        rw [show 14 * (i2 + 1) = (serializeHit a).length + 14 * i2 by
          rw [serializeHit_length]; ring]
        rw [List.drop_append]
        have hi2 : i2 < t.length := by
          simpa [Nat.succ_lt_succ_iff] using hi
        rw [show t.flatMap serializeHit = hitFileBytes t from rfl,
          ihe i2 hi2]
        simp

/-- Claim C6: every serialized hit record is exactly 14 bytes, written
as five consecutive fixed-width fields in the order wordId (4 bytes),
imageId (4 bytes), angle (2 bytes), x (2 bytes), y (2 bytes), with no
padding; consecutive records in a hit file abut with no separator:
record i of the file is exactly the 14 bytes starting at offset
14 * i. -/
theorem C6_hit_record_layout :
    (∀ h, (serializeHit h).length = 14 ∧
      serializeHit h = toBytesLE h.wordId 4 ++ toBytesLE h.imageId 4 ++
        toBytesLE h.angle 2 ++ toBytesLE h.x 2 ++ toBytesLE h.y 2) ∧
    ∀ hits, (hitFileBytes hits).length = 14 * hits.length ∧
      ∀ i, i < hits.length →
        ((hitFileBytes hits).drop (14 * i)).take 14 =
          serializeHit (hits[i]?.getD ⟨0, 0, 0, 0, 0⟩) :=
  ⟨fun h => ⟨serializeHit_length h, rfl⟩,
   fun hits => hitFileBytes_extract hits⟩

/-- Witness for C6_hit_record_layout on a concrete two-record file. -/
theorem C6_hit_record_layout_witness :
    (hitFileBytes [⟨1, 2, 3, 4, 5⟩, ⟨6, 7, 8, 9, 10⟩]).length = 28 ∧
    ((hitFileBytes [⟨1, 2, 3, 4, 5⟩, ⟨6, 7, 8, 9, 10⟩]).drop 14).take 14 =
      serializeHit ⟨6, 7, 8, 9, 10⟩ := by
  have hth := C6_hit_record_layout
  constructor
  · simpa using (hth.2 [⟨1, 2, 3, 4, 5⟩, ⟨6, 7, 8, 9, 10⟩]).1
  · have h2 := (hth.2 [⟨1, 2, 3, 4, 5⟩, ⟨6, 7, 8, 9, 10⟩]).2 1
      (by norm_num)
    simpa using h2

/-! ## Vocabulary loader lemmas -/

/-- A successful component read yields 4 bytes taken from the front of
the stream. -/
lemma readChunk_spec (s c rest : List ℕ)
    (h : readChunk s = some (c, rest)) :
    c.length = 4 ∧ s = c ++ rest := by
  rcases s with _ | ⟨b0, s1⟩
  · simp [readChunk] at h
  rcases s1 with _ | ⟨b1, s2⟩
  · simp [readChunk] at h
  rcases s2 with _ | ⟨b2, s3⟩
  · simp [readChunk] at h
  rcases s3 with _ | ⟨b3, rr⟩
  · simp [readChunk] at h
  simp only [readChunk, Option.some.injEq, Prod.mk.injEq] at h
  obtain ⟨h1, h2⟩ := h
  subst h1
  subst h2
  simp

/-- A successful n-component read yields n components of 4 bytes each
and consumes exactly 4 * n bytes. -/
lemma readChunks_spec (n : ℕ) :
    ∀ s cs rest, readChunks n s = some (cs, rest) →
      cs.length = n ∧ (∀ c ∈ cs, c.length = 4) ∧
        s.length = 4 * n + rest.length := by
  induction n with
  | zero =>
    intro s cs rest h
    simp only [readChunks, Option.some.injEq, Prod.mk.injEq] at h
    obtain ⟨h1, h2⟩ := h
    subst h1
    subst h2
    simp
  | succ m ih =>
    intro s cs rest h
    rcases hc : readChunk s with _ | ⟨c, r⟩
    · simp only [readChunks, hc] at h
      simp at h
    · simp only [readChunks, hc] at h
      rcases hcs : readChunks m r with _ | ⟨cs2, rest2⟩
      · rw [hcs] at h
        simp at h
      · rw [hcs] at h
        simp only [Option.some.injEq, Prod.mk.injEq] at h
        obtain ⟨h1, h2⟩ := h
        subst h1
        subst h2
        obtain ⟨hl, hs⟩ := readChunk_spec s c r hc
        obtain ⟨hl2, hc4, hlen⟩ := ih r cs2 _ hcs
        refine ⟨by simp [hl2], ?_, ?_⟩
        · intro x hx
          rcases List.mem_cons.mp hx with h3 | h3
          · subst h3
            exact hl
          · exact hc4 x h3
        · rw [hs]
          simp only [List.length_append, hl, hlen]
          ring

/-- A component read on an extended stream succeeds identically,
leaving the extension after the remainder. -/
lemma readChunk_append (s t c r : List ℕ)
    (h : readChunk s = some (c, r)) :
    readChunk (s ++ t) = some (c, r ++ t) := by
  rcases s with _ | ⟨b0, s1⟩
  · simp [readChunk] at h
  rcases s1 with _ | ⟨b1, s2⟩
  · simp [readChunk] at h
  rcases s2 with _ | ⟨b2, s3⟩
  · simp [readChunk] at h
  rcases s3 with _ | ⟨b3, rr⟩
  · simp [readChunk] at h
  simp only [readChunk, Option.some.injEq, Prod.mk.injEq] at h
  obtain ⟨h1, h2⟩ := h
  subst h1
  subst h2
  simp [readChunk]

/-- Reading n components that consume the whole stream, on the stream
extended by t, reads the same components and leaves exactly t. -/
lemma readChunks_append (n : ℕ) :
    ∀ s t cs, readChunks n s = some (cs, []) →
      readChunks n (s ++ t) = some (cs, t) := by
  induction n with
  | zero =>
    intro s t cs h
    simp only [readChunks, Option.some.injEq, Prod.mk.injEq] at h
    obtain ⟨h1, h2⟩ := h
    subst h1
    subst h2
    simp [readChunks]
  | succ m ih =>
    intro s t cs h
    rcases hc : readChunk s with _ | ⟨c, r⟩
    · simp only [readChunks, hc] at h
      simp at h
    · simp only [readChunks, hc] at h
      rcases hcs : readChunks m r with _ | ⟨cs2, rest2⟩
      · rw [hcs] at h
        simp at h
      · rw [hcs] at h
        simp only [Option.some.injEq, Prod.mk.injEq] at h
        obtain ⟨h1, h2⟩ := h
        subst h1
        subst h2
        have hra := readChunk_append s t c r hc
        have hia := ih r t cs2 hcs
        simp only [readChunks, hra, hia]

/-- Skipping to the newline strictly shortens the stream. -/
lemma skipLine_length (s : List ℕ) :
    ∀ r, skipLine s = some r → r.length < s.length := by
  induction s with
  | nil =>
    intro r h
    simp [skipLine] at h
  | cons b rest ih =>
    intro r h
    by_cases hb : b = 10
    · simp only [skipLine, if_pos hb, Option.some.injEq] at h
      subst h
      simp
    · simp only [skipLine, if_neg hb] at h
      exact Nat.lt_succ_of_lt (ih r h)

/-- Every row the loader appends has exactly 128 components of 4 bytes
each: a partial final record is never appended. -/
lemma parseRowsAux_rows (fuel : ℕ) :
    ∀ s row, row ∈ parseRowsAux fuel s →
      row.length = 128 ∧ ∀ c ∈ row, c.length = 4 := by
  induction fuel with
  | zero =>
    intro s row h
    simp [parseRowsAux] at h
  | succ m ih =>
    intro s row h
    rcases hc : readChunks 128 s with _ | ⟨r, rest⟩
    · simp only [parseRowsAux, hc] at h
      simp at h
    · simp only [parseRowsAux, hc] at h
      obtain ⟨hl, hc4, _⟩ := readChunks_spec 128 s r rest hc
      rcases hsk : skipLine rest with _ | rest2
      · rw [hsk] at h
        simp at h
        subst h
        exact ⟨hl, hc4⟩
      · rw [hsk] at h
        rcases List.mem_cons.mp h with h2 | h2
        · subst h2
          exact ⟨hl, hc4⟩
        · exact ih rest2 row h2

/-- The fuel of the loader loop is irrelevant once it exceeds the
stream length. -/
lemma parseRowsAux_fuel (f1 : ℕ) :
    ∀ f2 s, s.length < f1 → s.length < f2 →
      parseRowsAux f1 s = parseRowsAux f2 s := by
  induction f1 with
  | zero =>
    intro f2 s h1 h2
    omega
  | succ m ih =>
    intro f2 s h1 h2
    rcases f2 with _ | m2
    · omega
    · rcases hc : readChunks 128 s with _ | ⟨r, rest⟩
      · simp only [parseRowsAux, hc]
      · obtain ⟨_, _, hlen⟩ := readChunks_spec 128 s r rest hc
        rcases hsk : skipLine rest with _ | rest2
        · simp only [parseRowsAux, hc, hsk]
        · simp only [parseRowsAux, hc, hsk]
          have hr2 := skipLine_length rest rest2 hsk
          rw [ih m2 rest2 (by omega) (by omega)]

/-- A stream shorter than one 512-byte record yields no row. -/
lemma parseRows_short (s : List ℕ) (h : s.length < 512) :
    parseRows s = [] := by
  unfold parseRows
  rcases hc : readChunks 128 s with _ | ⟨r, rest⟩
  · simp only [parseRowsAux, hc]
  · exfalso
    obtain ⟨_, _, hlen⟩ := readChunks_spec 128 s r rest hc
    omega

/-- One complete record followed by its newline delimiter parses to one
row followed by the parse of the remaining bytes. -/
lemma parseRows_record (rec rest : List ℕ) (row : List (List ℕ))
    (h : readChunks 128 rec = some (row, [])) :
    parseRows (rec ++ 10 :: rest) = row :: parseRows rest := by
  have happ := readChunks_append 128 rec (10 :: rest) row h
  have hlenrec : rec.length = 512 := by
    obtain ⟨_, _, hlen⟩ := readChunks_spec 128 rec row [] h
    simpa using hlen
  have hsk : skipLine (10 :: rest) = some rest := by
    simp [skipLine]
  have hstep : parseRowsAux ((rec ++ 10 :: rest).length + 1)
      (rec ++ 10 :: rest) =
      row :: parseRowsAux (rec ++ 10 :: rest).length rest := by
    simp only [parseRowsAux, happ, hsk]
  calc parseRows (rec ++ 10 :: rest)
      = row :: parseRowsAux (rec ++ 10 :: rest).length rest := by
        exact hstep
    _ = row :: parseRowsAux (rest.length + 1) rest := by
        have hb1 : rest.length < (rec ++ 10 :: rest).length := by
          simp only [List.length_append, List.length_cons, hlenrec]
          omega
        have hb2 : rest.length < rest.length + 1 := by omega
        rw [parseRowsAux_fuel ((rec ++ 10 :: rest).length)
          (rest.length + 1) rest hb1 hb2]
    _ = row :: parseRows rest := rfl

/-! ## Claim C7: vocabulary loader behaviour -/

/-- Claim C7: the loader reads fixed-size records (128 4-byte float
components followed by bytes up to and including a newline) until end
of input; an unopenable file is the only input on which the load fails
(first two conjuncts: closed files yield none, open files always yield
the parsed rows whatever the bytes); every appended row has all 128
components read from the file (third conjunct); a short or partial
final record is dropped without error (fourth conjunct, the extreme
case of a stream shorter than one record; the third conjunct rules out
partial rows in general); a complete record plus its newline delimiter
contributes exactly one row and the loader continues on the rest (fifth
conjunct). -/
theorem C7_vocab_loader_total (bytes rec rest : List ℕ)
    (row : List (List ℕ)) (hrec : readChunks 128 rec = some (row, [])) :
    readVisualWordsFn false bytes = none ∧
    readVisualWordsFn true bytes = some (parseRows bytes) ∧
    (∀ r, r ∈ parseRows bytes →
      r.length = 128 ∧ ∀ c ∈ r, c.length = 4) ∧
    (bytes.length < 512 → parseRows bytes = []) ∧
    parseRows (rec ++ 10 :: rest) = row :: parseRows rest := by
  refine ⟨rfl, rfl, ?_, fun hs => parseRows_short bytes hs,
    parseRows_record rec rest row hrec⟩
  intro r hr
  unfold parseRows at hr
  exact parseRowsAux_rows (bytes.length + 1) bytes r hr

/-- Witness for C7_vocab_loader_total: a file of one all-zero record
and its newline loads to exactly one 128-component row. -/
theorem C7_vocab_loader_total_witness :
    readVisualWordsFn true (List.replicate 512 0 ++ 10 :: []) =
      some [List.replicate 128 [0, 0, 0, 0]] := by
  have hrec : readChunks 128 (List.replicate 512 0) =
      some (List.replicate 128 [0, 0, 0, 0], []) := by decide
  have hth := C7_vocab_loader_total (List.replicate 512 0 ++ 10 :: [])
    (List.replicate 512 0) [] (List.replicate 128 [0, 0, 0, 0]) hrec
  rw [hth.2.1, hth.2.2.2.2]
  have hnil : parseRows [] = [] := by decide
  rw [hnil]

/-! ## Claim C4: init requires exactly one million rows -/

/-- Claim C4: initialization proceeds past the row-count assertion only
with a vocabulary of exactly 1000000 rows: a load yielding any other
row count aborts at the assertion before the index is built or loaded,
and an unopenable file exits before the assertion; on the continuing
path the vocabulary has exactly 1000000 rows. -/
theorem C4_init_exact_row_count :
    (∀ bytes v, initModel (some bytes) = .ok v → v.length = 1000000) ∧
    (∀ bytes, (parseRows bytes).length ≠ 1000000 →
      initModel (some bytes) = .assertFailure) ∧
    initModel none = .exitFailure := by
  refine ⟨?_, ?_, rfl⟩
  · intro bytes v h
    unfold initModel at h
    dsimp only at h
    split_ifs at h with hc
    cases h
    exact hc
  · intro bytes hne
    unfold initModel
    dsimp only
    rw [if_neg hne]

/-- Witness for C4_init_exact_row_count: the empty file parses to zero
rows and init aborts at the assertion. -/
theorem C4_init_exact_row_count_witness :
    (parseRows []).length ≠ 1000000 ∧
    initModel (some []) = .assertFailure := by
  have hne : (parseRows []).length ≠ 1000000 := by decide
  exact ⟨hne, C4_init_exact_row_count.2.1 [] hne⟩
